import Mathlib

/-!
Verification of the zstp vulnerability-type alignment subsystem.

The development shallowly embeds:
  * the embedding-provider adapter `get_embedding` (src/llm/embedding.py);
  * the alignment driver `process_single_vulnerability_alignment` and
    `batch_process_vulnerability_alignment` (src/data_processing/processing.py);
  * the alignment engine `align_and_ingest_entity` together with its entity
    store.  The module data_processing/vulnerability_entity_alignment.py is
    imported by processing.py but is not part of the available sources, so the
    engine is modelled from the specification (each such definition carries a
    doc comment starting with "Modelled from the spec:").

Machine floats of the original code are embedded as exact rationals; the
similarity function of the provider layer is a parameter of the engine model.
-/

namespace Zstp

/-! ## Embedding provider adapter (src/llm/embedding.py, get_embedding) -/

/-- Embedding of `get_embedding` from src/llm/embedding.py.  The Python
function first returns `[]` when `text` is falsy, then issues a single API
call inside a `try` block; on success it returns the list of embedding
vectors, and on any exception it logs a warning and returns `[]`.  The
outcomes of successive provider calls are supplied as the list `attempts`
(`none` models a raised exception such as a timeout or malformed response);
the function consumes only the first outcome because the source issues
exactly one call and never retries. -/
def get_embedding (text : String) (attempts : List (Option (List (List ℚ)))) :
    List (List ℚ) :=
  if text = "" then []
  else
    match attempts.head? with
    | some (some embs) => embs
    | _ => []

/-! ## Alignment engine model (data_processing/vulnerability_entity_alignment.py,
    absent from src/; modelled from the spec) -/

/-- Action of an alignment result: the spec fixes
`action ∈ \x7bmatched, created\x7d`. -/
inductive Action where
  | matched : Action
  | created : Action
deriving DecidableEq, Repr

/-- Modelled from the spec: the CanonicalEntity record of §3 of the spec
(id, canonical_name, embedding, aliases, usage_count); the defining module
data_processing/vulnerability_entity_alignment.py is not among the sources. -/
structure CanonicalEntity where
  id : Nat
  canonical_name : String
  embedding : List ℚ
  aliases : List String
  usage_count : Nat
deriving DecidableEq, Repr

/-- Modelled from the spec: the AlignmentResult record of §3
(original_name, aligned_entity_name, action, similarity, entity_id), the
value `align_and_ingest_entity` hands back to the driver; `similarity` is
`none` exactly when the spec says `null`. -/
structure AlignmentResult where
  original_name : String
  aligned_entity_name : String
  action : Action
  similarity : Option ℚ
  entity_id : Nat
deriving DecidableEq, Repr

/-- Modelled from the spec: the EntityStore of §4.2, the sole owner of all
canonical entities; `next_id` realises the monotonically increasing id
generation of §3. -/
structure EntityStore where
  entities : List CanonicalEntity
  next_id : Nat
deriving DecidableEq, Repr

/-- Modelled from the spec: the configuration of the AlignmentEngine of §4.1:
the embedding provider, the similarity measure of the provider layer
(cosine similarity in the spec; kept as a parameter since its numeric
implementation lives outside the modelled module) and the decision threshold
(default 0.85, configurable). -/
structure EngineConfig where
  embed : String → List ℚ
  sim : List ℚ → List ℚ → ℚ
  threshold : ℚ

/-- Modelled from the spec: step 1 of the Align algorithm of §4.1, lossy
normalization for comparison purposes: trim whitespace and case-fold. -/
def normalize (s : String) : String :=
  s.trim.toLower

/-- Modelled from the spec: step 5 of the Align algorithm of §4.1,
`best = argmax(similarity)` over the existing entities, ties broken by
lowest id. -/
def bestMatch (sim : List ℚ → List ℚ → ℚ) (v : List ℚ) :
    List CanonicalEntity → Option (CanonicalEntity × ℚ)
  | [] => none
  | e :: es =>
    match bestMatch sim v es with
    | none => some (e, sim v e.embedding)
    | some (b, sb) =>
      if sb < sim v e.embedding ∨ (sim v e.embedding = sb ∧ e.id < b.id) then
        some (e, sim v e.embedding)
      else
        some (b, sb)

/-- Modelled from the spec: step 6 of the Align algorithm of §4.1, the
mutation applied to the best entity on a match: append the raw name as an
alias and increment the usage count; every other entity is untouched. -/
def appendAliasOf (b : CanonicalEntity) (raw : String) :
    CanonicalEntity → CanonicalEntity :=
  fun e =>
    if e.id = b.id then
      { e with aliases := e.aliases ++ [raw],
               usage_count := e.usage_count + 1 }
    else e

/-- Modelled from the spec: step 7 of the Align algorithm of §4.1, creation of
a new CanonicalEntity with a fresh unique id, canonical_name the original raw
string, embedding the freshly computed vector, aliases `[raw]` and
usage_count 1; the result carries action created and similarity `null`. -/
def createEntity (store : EntityStore) (raw : String) (v : List ℚ) :
    EntityStore × AlignmentResult :=
  let e : CanonicalEntity :=
    { id := store.next_id, canonical_name := raw, embedding := v,
      aliases := [raw], usage_count := 1 }
  ({ entities := store.entities ++ [e], next_id := store.next_id + 1 },
   { original_name := raw, aligned_entity_name := raw, action := .created,
     similarity := none, entity_id := store.next_id })

/-- Modelled from the spec: the Align operation of §4.1
(`align_and_ingest_entity`): normalize, embed, compare against every stored
entity, and either append the raw name as an alias of the best entity when
its similarity reaches the threshold (inclusive boundary, §8) or create a new
entity.  The critical section of §5 makes the whole decide-and-commit step
atomic, so the operation is a pure function from store to store. -/
def Align (cfg : EngineConfig) (store : EntityStore) (raw : String) :
    EntityStore × AlignmentResult :=
  let v := cfg.embed (normalize raw)
  match bestMatch cfg.sim v store.entities with
  | some (b, s) =>
    if cfg.threshold ≤ s then
      ({ store with entities := store.entities.map (appendAliasOf b raw) },
       { original_name := raw, aligned_entity_name := b.canonical_name,
         action := .matched, similarity := some s, entity_id := b.id })
    else
      createEntity store raw v
  | none => createEntity store raw v

/-- Modelled from the spec: a sequence of Align calls executed under the
store critical section of §5; by the required linearizability guarantee any
concurrent execution is equivalent to such a sequence in some order. -/
def alignAll (cfg : EngineConfig) : EntityStore → List String →
    EntityStore × List AlignmentResult
  | store, [] => (store, [])
  | store, n :: rest =>
    let p := Align cfg store n
    let q := alignAll cfg p.1 rest
    (q.1, p.2 :: q.2)

/-- Invariant of §3 of the spec: `usage_count == len(aliases)` for every
entity of the store. -/
def UsageInv (s : EntityStore) : Prop :=
  ∀ e ∈ s.entities, e.usage_count = e.aliases.length

/-- Every stored id is below the id generator, so fresh ids are unique. -/
def IdInv (s : EntityStore) : Prop :=
  ∀ e ∈ s.entities, e.id < s.next_id

/-- No two stored entities share an id (§3: id unique across the store). -/
def NodupIds (s : EntityStore) : Prop :=
  (s.entities.map fun e => e.id).Nodup

/-- Well-formedness of a store: all three invariants. -/
def StoreWF (s : EntityStore) : Prop :=
  UsageInv s ∧ IdInv s ∧ NodupIds s

/-- Number of alignment results of a run that resolved to entity id `i`. -/
def countResolved (rs : List AlignmentResult) (i : Nat) : Nat :=
  (rs.filter fun r => r.entity_id = i).length

/-- Usage count recorded in `store` for id `i`, 0 when absent. -/
def initUsage (store : EntityStore) (i : Nat) : Nat :=
  match store.entities.find? fun e => e.id = i with
  | some e => e.usage_count
  | none => 0

/-! ## Alignment driver (src/data_processing/processing.py) -/

/-- Input record handed to the driver: the `vulnerability_type` field when
present, plus an opaque payload standing for the remaining JSON fields
(`original_data` in the source). -/
structure VulnRecord where
  vulnerability_type : Option String
  payload : Nat
deriving DecidableEq, Repr

/-- Entry of `aligned_vulnerabilities` built at lines 181-188 of
processing.py from the alignment result. -/
structure AlignedEntry where
  index : Nat
  original_name : String
  aligned_name : String
  action : Action
  similarity : Option ℚ
  entity_id : Nat
deriving DecidableEq, Repr

/-- Entry of `failed_vulnerabilities` built at lines 170-174 and 197-201 of
processing.py: index, error description and the original record. -/
structure FailedEntry where
  index : Nat
  error : String
  original_data : VulnRecord
deriving DecidableEq, Repr

/-- Per-file result dictionary of `process_single_vulnerability_alignment`
(lines 145-152 of processing.py); `error_message` stays `none` on the
list-parsing path modelled here. -/
structure FileResult where
  status : String
  aligned_vulnerabilities : List AlignedEntry
  failed_vulnerabilities : List FailedEntry
  total_count : Nat
  success_count : Nat
  error_message : Option String
deriving DecidableEq, Repr

/-- Error message of line 172 of processing.py for a record without the
`vulnerability_type` field. -/
def missingFieldMsg : String :=
  "缺少 vulnerability_type 字段"

/-- Aligned entry recorded at lines 181-188 of processing.py. -/
def mkAlignedEntry (idx : Nat) (ar : AlignmentResult) : AlignedEntry :=
  { index := idx, original_name := ar.original_name,
    aligned_name := ar.aligned_entity_name, action := ar.action,
    similarity := ar.similarity, entity_id := ar.entity_id }

/-- Loop body of lines 166-202 of processing.py over the records of one file,
starting at index `idx`.  `alignFn` stands for `align_and_ingest_entity`; an
`Except.error e` models an exception whose formatted description
(`type(e).__name__: str(e)`) is `e`, caught by the inner handler at line 194.
Returns the aligned entries, the failed entries and the success count, each
accumulated in loop order. -/
def processRecords (alignFn : VulnRecord → Except String AlignmentResult)
    (idx : Nat) : List VulnRecord →
    List AlignedEntry × List FailedEntry × Nat
  | [] => ([], [], 0)
  | r :: rest =>
    let acc := processRecords alignFn (idx + 1) rest
    match r.vulnerability_type with
    | none =>
      (acc.1, { index := idx, error := missingFieldMsg,
                original_data := r } :: acc.2.1, acc.2.2)
    | some _ =>
      match alignFn r with
      | .ok ar => (mkAlignedEntry idx ar :: acc.1, acc.2.1, acc.2.2 + 1)
      | .error e =>
        (acc.1, { index := idx, error := e, original_data := r } :: acc.2.1,
         acc.2.2)

/-- Embedding of `process_single_vulnerability_alignment`
(processing.py lines 128-209) on the path where the file content parsed to a
list `vulns`: process every record, then set status to "success" exactly when
`success_count > 0` (lines 204-206; the initial status of line 146 is
"error"). -/
def process_single_vulnerability_alignment
    (alignFn : VulnRecord → Except String AlignmentResult)
    (vulns : List VulnRecord) : FileResult :=
  let acc := processRecords alignFn 0 vulns
  { status := if 0 < acc.2.2 then "success" else "error",
    aligned_vulnerabilities := acc.1,
    failed_vulnerabilities := acc.2.1,
    total_count := vulns.length,
    success_count := acc.2.2,
    error_message := none }

/-- Batch summary of `batch_process_vulnerability_alignment`
(processing.py lines 276-286); `alignment_rate` keeps the exact fraction the
source formats as a percentage string. -/
structure BatchSummary where
  total_files : Nat
  processed_files : Nat
  total_vulnerabilities : Nat
  aligned_vulnerabilities : Nat
  failed_vulnerabilities : Nat
  alignment_rate : ℚ
deriving DecidableEq, Repr

/-- Embedding of the aggregation of `batch_process_vulnerability_alignment`
(processing.py lines 252-286) over the per-file results: the loop at lines
266-273 accumulates `total_count`, `success_count` and the length of
`failed_vulnerabilities` of every file (the `as_completed` completion order
only permutes commutative sums), and the summary at lines 276-286 records the
totals together with the alignment rate `aligned / total`, reported as 0 when
no vulnerability was seen. -/
def batch_process_vulnerability_alignment (results : List FileResult) :
    BatchSummary :=
  let total := (results.map fun r => r.total_count).sum
  let aligned := (results.map fun r => r.success_count).sum
  let failed := (results.map fun r => r.failed_vulnerabilities.length).sum
  { total_files := results.length,
    processed_files := results.length,
    total_vulnerabilities := total,
    aligned_vulnerabilities := aligned,
    failed_vulnerabilities := failed,
    alignment_rate := if 0 < total then (aligned : ℚ) / total else 0 }

/-! ## Concrete fixtures used by the witness theorems -/

/-- Similarity fixture: self-similarity 1, otherwise the first coordinate of
the stored embedding. -/
def wSim : List ℚ → List ℚ → ℚ :=
  fun u w => if u = w then 1 else w.headD 0

/-- Embedding fixture: a constant unit vector. -/
def wEmbed : String → List ℚ :=
  fun _ => [1]

/-- Engine configuration fixture; the threshold is an integer rational so
that kernel evaluation of comparisons never normalizes fractions. -/
def wCfg : EngineConfig :=
  { embed := wEmbed, sim := wSim, threshold := 1 }

/-- Entity fixture with id 2 and similarity 2 under `wSim`. -/
def wEnt1 : CanonicalEntity :=
  { id := 2, canonical_name := "Reentrancy", embedding := [2],
    aliases := ["Reentrancy"], usage_count := 1 }

/-- Entity fixture with id 1 tying `wEnt1` at similarity 2 under `wSim`. -/
def wEnt2 : CanonicalEntity :=
  { id := 1, canonical_name := "Overflow", embedding := [2],
    aliases := ["Overflow"], usage_count := 1 }

/-- Store fixture holding the two tying entities. -/
def wStore : EntityStore :=
  { entities := [wEnt1, wEnt2], next_id := 3 }

/-- Empty store fixture. -/
def wEmpty : EntityStore :=
  { entities := [], next_id := 0 }

/-- Alignment result fixture returned by `sampleAlignFn`. -/
def sampleAR : AlignmentResult :=
  { original_name := "Reentrancy", aligned_entity_name := "Reentrancy",
    action := .created, similarity := none, entity_id := 0 }

/-- Driver fixture for `align_and_ingest_entity`: records with payload 0
align, the rest raise. -/
def sampleAlignFn : VulnRecord → Except String AlignmentResult :=
  fun r => if r.payload = 0 then Except.ok sampleAR
           else Except.error ("RuntimeError: boom")

/-- Record fixture that aligns under `sampleAlignFn`. -/
def goodRec : VulnRecord :=
  { vulnerability_type := some ("Reentrancy"), payload := 0 }

/-- Record fixture without the vulnerability_type field. -/
def badRec : VulnRecord :=
  { vulnerability_type := none, payload := 7 }

/-- Record fixture whose alignment raises under `sampleAlignFn`. -/
def errRec : VulnRecord :=
  { vulnerability_type := some ("Overflow"), payload := 1 }

/-! ## Driver lemmas -/

/-- The success count of the record loop counts exactly the records that
carry the field and align without an exception. -/
theorem processRecords_success_filter (f : VulnRecord → Except String AlignmentResult)
    (idx : Nat) (vulns : List VulnRecord) :
    (processRecords f idx vulns).2.2 =
      (vulns.filter fun r => r.vulnerability_type.isSome && (f r).isOk).length := by
  induction vulns generalizing idx with
  | nil => simp [processRecords]
  | cons r rest ih =>
    cases hvt : r.vulnerability_type with
    | none => simp [processRecords, hvt, ih (idx + 1)]
    | some t =>
      cases hf : f r with
      | ok ar =>
        simp [processRecords, hvt, hf, ih (idx + 1), List.filter_cons,
          Except.isOk, Except.toBool]
      | error e =>
        simp [processRecords, hvt, hf, ih (idx + 1), List.filter_cons,
          Except.isOk, Except.toBool]

/-- Accounting of the record loop: the success count is the number of aligned
entries, and aligned plus failed entries cover every record exactly once. -/
theorem processRecords_counts (f : VulnRecord → Except String AlignmentResult)
    (idx : Nat) (vulns : List VulnRecord) :
    (processRecords f idx vulns).2.2 = (processRecords f idx vulns).1.length ∧
    (processRecords f idx vulns).1.length +
      (processRecords f idx vulns).2.1.length = vulns.length := by
  induction vulns generalizing idx with
  | nil => simp [processRecords]
  | cons r rest ih =>
    obtain ⟨ih1, ih2⟩ := ih (idx + 1)
    cases hvt : r.vulnerability_type with
    | none =>
      simp only [processRecords, hvt, List.length_cons]
      exact ⟨ih1, by omega⟩
    | some t =>
      cases hf : f r with
      | ok ar =>
        simp only [processRecords, hvt, hf, List.length_cons]
        exact ⟨by omega, by omega⟩
      | error e =>
        simp only [processRecords, hvt, hf, List.length_cons]
        exact ⟨ih1, by omega⟩

/-- A record without the `vulnerability_type` field is recorded among the
failed entries with the message of line 172 of processing.py. -/
theorem processRecords_failed_mem_missing
    (f : VulnRecord → Except String AlignmentResult) (vulns : List VulnRecord) :
    ∀ (i : Nat) (hi : i < vulns.length) (idx : Nat),
      vulns[i].vulnerability_type = none →
      ({ index := idx + i, error := missingFieldMsg,
         original_data := vulns[i] } : FailedEntry)
        ∈ (processRecords f idx vulns).2.1 := by
  induction vulns with
  | nil => intro i hi; simp at hi
  | cons r rest ih =>
    intro i hi idx hbad
    match i with
    | 0 =>
      simp only [List.getElem_cons_zero] at hbad ⊢
      simp [processRecords, hbad]
    | (j + 1) =>
      have hj : j < rest.length := by simpa using hi
      simp only [List.getElem_cons_succ] at hbad ⊢
      have harith : idx + (j + 1) = (idx + 1) + j := by omega
      rw [harith]
      have h2 := ih j hj (idx + 1) hbad
      cases hvt : r.vulnerability_type with
      | none =>
        simp only [processRecords, hvt]
        exact List.mem_cons_of_mem _ h2
      | some t =>
        cases hf : f r with
        | ok ar => simpa only [processRecords, hvt, hf] using h2
        | error e =>
          simp only [processRecords, hvt, hf]
          exact List.mem_cons_of_mem _ h2

/-- A record whose alignment raises is recorded among the failed entries with
the formatted error description (lines 194-201 of processing.py). -/
theorem processRecords_failed_mem_error
    (f : VulnRecord → Except String AlignmentResult) (vulns : List VulnRecord) :
    ∀ (i : Nat) (hi : i < vulns.length) (idx : Nat) (t e : String),
      vulns[i].vulnerability_type = some t → f vulns[i] = Except.error e →
      ({ index := idx + i, error := e,
         original_data := vulns[i] } : FailedEntry)
        ∈ (processRecords f idx vulns).2.1 := by
  induction vulns with
  | nil => intro i hi; simp at hi
  | cons r rest ih =>
    intro i hi idx t e hvt herr
    match i with
    | 0 =>
      simp only [List.getElem_cons_zero] at hvt herr ⊢
      simp [processRecords, hvt, herr]
    | (j + 1) =>
      have hj : j < rest.length := by simpa using hi
      simp only [List.getElem_cons_succ] at hvt herr ⊢
      have harith : idx + (j + 1) = (idx + 1) + j := by omega
      rw [harith]
      have h2 := ih j hj (idx + 1) t e hvt herr
      cases hvt0 : r.vulnerability_type with
      | none =>
        simp only [processRecords, hvt0]
        exact List.mem_cons_of_mem _ h2
      | some t0 =>
        cases hf : f r with
        | ok ar => simpa only [processRecords, hvt0, hf] using h2
        | error e0 =>
          simp only [processRecords, hvt0, hf]
          exact List.mem_cons_of_mem _ h2

/-- The record loop only applies the alignment function to records that carry
the `vulnerability_type` field, so two alignment functions agreeing on those
records give identical per-file results. -/
theorem processRecords_congr (f g : VulnRecord → Except String AlignmentResult)
    (h : ∀ r : VulnRecord, r.vulnerability_type.isSome → f r = g r)
    (idx : Nat) (vulns : List VulnRecord) :
    processRecords f idx vulns = processRecords g idx vulns := by
  induction vulns generalizing idx with
  | nil => rfl
  | cons r rest ih =>
    cases hvt : r.vulnerability_type with
    | none => simp [processRecords, hvt, ih (idx + 1)]
    | some t =>
      have hfg : f r = g r := h r (by simp [hvt])
      simp [processRecords, hvt, ih (idx + 1), hfg]

/-- Dropping an element that fails the filter predicate does not change the
filtered length. -/
theorem filter_length_eraseIdx {α : Type} (p : α → Bool) (l : List α) (i : Nat)
    (hi : i < l.length) (hp : p l[i] = false) :
    (l.filter p).length = ((l.eraseIdx i).filter p).length := by
  conv_lhs => rw [← List.take_append_drop i l]
  rw [List.eraseIdx_eq_take_drop_succ, List.filter_append, List.filter_append,
    List.drop_eq_getElem_cons hi, List.filter_cons, hp]
  simp

/-- An Except value is ok exactly when it holds a value. -/
theorem isOk_iff_exists {ε α : Type} (x : Except ε α) :
    x.isOk = true ↔ ∃ a, x = Except.ok a := by
  cases x <;> simp [Except.isOk, Except.toBool]

/-! ## Claim theorems: driver -/

/-- C9: for every input file whose JSON content parses to a list, after
`process_single_vulnerability_alignment` returns, success_count plus the
number of entries in failed_vulnerabilities equals total_count: every record
of the list is counted exactly once as either a success or a failure. -/
theorem C9_per_file_accounting
    (f : VulnRecord → Except String AlignmentResult) (vulns : List VulnRecord) :
    (process_single_vulnerability_alignment f vulns).success_count +
      (process_single_vulnerability_alignment f vulns).failed_vulnerabilities.length
      = (process_single_vulnerability_alignment f vulns).total_count := by
  obtain ⟨h1, h2⟩ := processRecords_counts f 0 vulns
  simp only [process_single_vulnerability_alignment]
  omega

/-- C10: the per-file status is "success" if and only if at least one record
of the file aligned successfully; an empty list, or a file in which every
record fails, is reported with status "error". -/
theorem C10_status_success_iff
    (f : VulnRecord → Except String AlignmentResult) (vulns : List VulnRecord) :
    ((process_single_vulnerability_alignment f vulns).status = "success" ↔
      ∃ r ∈ vulns, r.vulnerability_type.isSome ∧ ∃ ar, f r = Except.ok ar) ∧
    (vulns = [] →
      (process_single_vulnerability_alignment f vulns).status = "error") ∧
    ((∀ r ∈ vulns, r.vulnerability_type = none ∨ ∃ e, f r = Except.error e) →
      (process_single_vulnerability_alignment f vulns).status = "error") := by
  have hchar : 0 < (processRecords f 0 vulns).2.2 ↔
      ∃ r ∈ vulns, r.vulnerability_type.isSome ∧ ∃ ar, f r = Except.ok ar := by
    rw [processRecords_success_filter]
    rw [List.length_pos_iff_exists_mem]
    constructor
    · rintro ⟨r, hr⟩
      rw [List.mem_filter] at hr
      obtain ⟨hmem, hp⟩ := hr
      rw [Bool.and_eq_true] at hp
      exact ⟨r, hmem, hp.1, (isOk_iff_exists (f r)).mp hp.2⟩
    · rintro ⟨r, hmem, hsome, ar, hok⟩
      refine ⟨r, List.mem_filter.mpr ⟨hmem, ?_⟩⟩
      rw [Bool.and_eq_true]
      exact ⟨hsome, (isOk_iff_exists (f r)).mpr ⟨ar, hok⟩⟩
  have hstat : (process_single_vulnerability_alignment f vulns).status =
      if 0 < (processRecords f 0 vulns).2.2 then "success" else "error" := rfl
  refine ⟨?_, ?_, ?_⟩
  · rw [hstat]
    by_cases hpos : 0 < (processRecords f 0 vulns).2.2
    · simp only [if_pos hpos]
      exact ⟨fun _ => hchar.mp hpos, fun _ => trivial⟩
    · simp only [if_neg hpos]
      constructor
      · intro h; exact absurd h (by decide)
      · intro h; exact absurd (hchar.mpr h) hpos
  · intro hnil
    subst hnil
    rfl
  · intro hall
    rw [hstat, if_neg]
    intro hpos
    obtain ⟨r, hmem, hsome, ar, hok⟩ := hchar.mp hpos
    rcases hall r hmem with hnone | ⟨e, herr⟩
    · rw [hnone] at hsome; exact absurd hsome (by decide)
    · rw [hok] at herr; exact Except.noConfusion herr

/-- C10 witness: a file parsing to the empty list is reported with status
"error", and a one-good-record file with status "success". -/
theorem C10_witness :
    (process_single_vulnerability_alignment sampleAlignFn []).status = "error" ∧
    (process_single_vulnerability_alignment sampleAlignFn [goodRec]).status
      = "success" := by
  constructor
  · exact (C10_status_success_iff sampleAlignFn []).2.1 rfl
  · refine (C10_status_success_iff sampleAlignFn [goodRec]).1.mpr
      ⟨goodRec, ?_, ?_, sampleAR, ?_⟩
    · exact List.mem_cons_self _ _
    · decide
    · rfl

/-- C6: a record lacking the vulnerability_type field is recorded as a
per-record validation failure with the message of line 172 of processing.py,
the alignment engine is not invoked on it (the per-file result only depends
on the alignment function at records carrying the field), and the remaining
records of the file are still processed (removing the bad record does not
change the number of successful alignments). -/
theorem C6_missing_field_failure
    (f g : VulnRecord → Except String AlignmentResult) (vulns : List VulnRecord)
    (i : Nat) (hi : i < vulns.length)
    (hbad : vulns[i].vulnerability_type = none)
    (hagree : ∀ r : VulnRecord, r.vulnerability_type.isSome → f r = g r) :
    ({ index := i, error := missingFieldMsg,
       original_data := vulns[i] } : FailedEntry)
      ∈ (process_single_vulnerability_alignment f vulns).failed_vulnerabilities ∧
    process_single_vulnerability_alignment f vulns =
      process_single_vulnerability_alignment g vulns ∧
    (process_single_vulnerability_alignment f vulns).success_count =
      (process_single_vulnerability_alignment f (vulns.eraseIdx i)).success_count
      := by
  refine ⟨?_, ?_, ?_⟩
  · have h := processRecords_failed_mem_missing f vulns i hi 0 hbad
    simpa [process_single_vulnerability_alignment] using h
  · simp [process_single_vulnerability_alignment,
      processRecords_congr f g hagree 0 vulns]
  · have h1 := processRecords_success_filter f 0 vulns
    have h2 := processRecords_success_filter f 0 (vulns.eraseIdx i)
    have hp : (fun r : VulnRecord =>
        r.vulnerability_type.isSome && (f r).isOk) vulns[i] = false := by
      simp [hbad]
    simp only [process_single_vulnerability_alignment, h1, h2]
    exact filter_length_eraseIdx _ vulns i hi hp

/-- C6 witness: in the file [badRec, goodRec] the field-less first record is
recorded as a validation failure. -/
theorem C6_witness :
    ({ index := 0, error := missingFieldMsg,
       original_data := badRec } : FailedEntry)
      ∈ (process_single_vulnerability_alignment sampleAlignFn
          [badRec, goodRec]).failed_vulnerabilities :=
  (C6_missing_field_failure sampleAlignFn sampleAlignFn [badRec, goodRec]
    0 (by decide) rfl (fun r _ => rfl)).1

/-- C7: an exception raised while aligning one record is caught and recorded
as a failed record with its error description, the remaining records are
still processed (removing the failing record does not change the number of
successful alignments), and every record of the file is still accounted for
(no abort). -/
theorem C7_exception_caught_and_recorded
    (f : VulnRecord → Except String AlignmentResult) (vulns : List VulnRecord)
    (i : Nat) (hi : i < vulns.length) (t e : String)
    (hvt : vulns[i].vulnerability_type = some t)
    (herr : f vulns[i] = Except.error e) :
    ({ index := i, error := e,
       original_data := vulns[i] } : FailedEntry)
      ∈ (process_single_vulnerability_alignment f vulns).failed_vulnerabilities ∧
    (process_single_vulnerability_alignment f vulns).success_count =
      (process_single_vulnerability_alignment f (vulns.eraseIdx i)).success_count
      ∧
    (process_single_vulnerability_alignment f vulns).success_count +
      (process_single_vulnerability_alignment f vulns).failed_vulnerabilities.length
      = vulns.length := by
  refine ⟨?_, ?_, ?_⟩
  · have h := processRecords_failed_mem_error f vulns i hi 0 t e hvt herr
    simpa [process_single_vulnerability_alignment] using h
  · have h1 := processRecords_success_filter f 0 vulns
    have h2 := processRecords_success_filter f 0 (vulns.eraseIdx i)
    have hp : (fun r : VulnRecord =>
        r.vulnerability_type.isSome && (f r).isOk) vulns[i] = false := by
      simp [hvt, herr, Except.isOk, Except.toBool]
    simp only [process_single_vulnerability_alignment, h1, h2]
    exact filter_length_eraseIdx _ vulns i hi hp
  · obtain ⟨h1, h2⟩ := processRecords_counts f 0 vulns
    simp only [process_single_vulnerability_alignment]
    omega

/-- C7 witness: in the file [errRec, goodRec] the exception of the first
record is recorded with its description. -/
theorem C7_witness :
    ({ index := 0, error := "RuntimeError: boom",
       original_data := errRec } : FailedEntry)
      ∈ (process_single_vulnerability_alignment sampleAlignFn
          [errRec, goodRec]).failed_vulnerabilities :=
  (C7_exception_caught_and_recorded sampleAlignFn [errRec, goodRec]
    0 (by decide) ("Overflow") ("RuntimeError: boom") rfl rfl).1

/-- Every aligned entry has action matched or created, so filtering on that
property keeps all of them. -/
theorem aligned_filter_matched_or_created (l : List AlignedEntry) :
    (l.filter fun a =>
      decide (a.action = Action.matched ∨ a.action = Action.created)).length
      = l.length := by
  have h : l.filter (fun a =>
      decide (a.action = Action.matched ∨ a.action = Action.created)) = l := by
    rw [List.filter_eq_self]
    intro a _
    cases ha : a.action <;> simp [ha]
  rw [h]

/-- C8: the batch summary has total equal to the sum of per-file record
counts, aligned equal to the number of records that returned matched or
created, failed equal to the number of failed records, and an alignment rate
equal to aligned divided by total, reported as 0 when total is zero. -/
theorem C8_batch_summary_counts
    (f : VulnRecord → Except String AlignmentResult)
    (files : List (List VulnRecord)) :
    (batch_process_vulnerability_alignment
        (files.map (process_single_vulnerability_alignment f))).total_vulnerabilities
      = (files.map List.length).sum ∧
    (batch_process_vulnerability_alignment
        (files.map (process_single_vulnerability_alignment f))).aligned_vulnerabilities
      = ((files.map (process_single_vulnerability_alignment f)).map fun r =>
          (r.aligned_vulnerabilities.filter fun a =>
            decide (a.action = Action.matched ∨ a.action = Action.created)).length).sum
      ∧
    (batch_process_vulnerability_alignment
        (files.map (process_single_vulnerability_alignment f))).failed_vulnerabilities
      = ((files.map (process_single_vulnerability_alignment f)).map fun r =>
          r.failed_vulnerabilities.length).sum ∧
    ((batch_process_vulnerability_alignment
        (files.map (process_single_vulnerability_alignment f))).total_vulnerabilities
        = 0 →
      (batch_process_vulnerability_alignment
        (files.map (process_single_vulnerability_alignment f))).alignment_rate = 0)
      ∧
    (0 < (batch_process_vulnerability_alignment
        (files.map (process_single_vulnerability_alignment f))).total_vulnerabilities
      →
      (batch_process_vulnerability_alignment
        (files.map (process_single_vulnerability_alignment f))).alignment_rate =
        ((batch_process_vulnerability_alignment
          (files.map (process_single_vulnerability_alignment f))).aligned_vulnerabilities
          : ℚ) /
        ((batch_process_vulnerability_alignment
          (files.map (process_single_vulnerability_alignment f))).total_vulnerabilities
          : ℚ)) := by
  refine ⟨?_, ?_, rfl, ?_, ?_⟩
  · simp only [batch_process_vulnerability_alignment, List.map_map]
    congr 1
  · simp only [batch_process_vulnerability_alignment, List.map_map]
    refine congrArg List.sum (List.map_congr_left ?_)
    intro vulns _
    simp only [Function.comp]
    rw [aligned_filter_matched_or_created]
    exact (processRecords_counts f 0 vulns).1
  · intro h0
    simp only [batch_process_vulnerability_alignment] at h0 ⊢
    rw [if_neg (by omega)]
  · intro h0
    simp only [batch_process_vulnerability_alignment] at h0 ⊢
    rw [if_pos h0]

/-- C8 witness: a two-file batch with one aligned and one failed record has
alignment rate aligned divided by total. -/
theorem C8_witness :
    (batch_process_vulnerability_alignment
        ([[goodRec], [errRec]].map
          (process_single_vulnerability_alignment sampleAlignFn))).alignment_rate
      =
      ((batch_process_vulnerability_alignment
        ([[goodRec], [errRec]].map
          (process_single_vulnerability_alignment sampleAlignFn))).aligned_vulnerabilities
        : ℚ) /
      ((batch_process_vulnerability_alignment
        ([[goodRec], [errRec]].map
          (process_single_vulnerability_alignment sampleAlignFn))).total_vulnerabilities
        : ℚ) :=
  (C8_batch_summary_counts sampleAlignFn [[goodRec], [errRec]]).2.2.2.2
    (by decide)

/-! ## Claim theorems: embedding provider -/

/-- C5 counterexample: with the provider call raising (outcome `none`), the
adapter returns the empty list, a non-error value indistinguishable from the
return for empty input, instead of surfacing an error to the caller. -/
theorem C5_counterexample :
    get_embedding ("boom") [none] = ([] : List (List ℚ)) ∧
    get_embedding ("boom") [none] = get_embedding ("") [some [[1]]] :=
  ⟨rfl, rfl⟩

/-- C5 (amended): when the embedding provider call fails, `get_embedding`
catches the exception and returns the empty list as a plain non-error value,
and the adapter does not retry internally: the result only depends on the
outcome of the first provider call. -/
theorem C5_failure_empty_no_retry :
    (∀ (text : String) (rest : List (Option (List (List ℚ)))),
      get_embedding text (none :: rest) = []) ∧
    (∀ (text : String) (a : Option (List (List ℚ)))
        (rest : List (Option (List (List ℚ)))),
      get_embedding text (a :: rest) = get_embedding text [a]) := by
  constructor
  · intro text rest
    by_cases h : text = "" <;> simp [get_embedding, h]
  · intro text a rest
    rfl

/-! ## Engine lemmas -/

/-- The best-match search returns nothing only on an empty entity set. -/
theorem bestMatch_eq_none (sim : List ℚ → List ℚ → ℚ) (v : List ℚ) :
    ∀ es : List CanonicalEntity, bestMatch sim v es = none → es = [] := by
  intro es h
  cases es with
  | nil => rfl
  | cons e0 rest =>
    cases hrec : bestMatch sim v rest with
    | none =>
      simp only [bestMatch, hrec] at h
      exact Option.noConfusion h
    | some p =>
      obtain ⟨b1, s1⟩ := p
      simp only [bestMatch, hrec] at h
      split at h <;> exact Option.noConfusion h

/-- Specification of the best-match search: it returns a stored entity
achieving the maximal similarity, and among the entities achieving it the one
with the lowest id. -/
theorem bestMatch_spec (sim : List ℚ → List ℚ → ℚ) (v : List ℚ) :
    ∀ (es : List CanonicalEntity) (b : CanonicalEntity) (s : ℚ),
      bestMatch sim v es = some (b, s) →
      b ∈ es ∧ sim v b.embedding = s ∧
        ∀ e ∈ es, sim v e.embedding ≤ s ∧
          (sim v e.embedding = s → b.id ≤ e.id) := by
  intro es
  induction es with
  | nil => intro b s h; exact absurd h (by simp [bestMatch])
  | cons e0 es ih =>
    intro b s h
    cases hrec : bestMatch sim v es with
    | none =>
      simp only [bestMatch, hrec] at h
      injection h with h1
      have hb : e0 = b := congrArg Prod.fst h1
      have hs : sim v e0.embedding = s := congrArg Prod.snd h1
      have hes : es = [] := bestMatch_eq_none sim v es hrec
      subst hes; subst hb
      refine ⟨List.mem_singleton_self e0, hs, ?_⟩
      intro e he
      rw [List.mem_singleton] at he
      subst he
      exact ⟨le_of_eq hs, fun _ => le_refl _⟩
    | some p =>
      obtain ⟨b1, s1⟩ := p
      simp only [bestMatch, hrec] at h
      obtain ⟨hb1mem, hs1, hall⟩ := ih b1 s1 hrec
      by_cases hc : s1 < sim v e0.embedding ∨
          (sim v e0.embedding = s1 ∧ e0.id < b1.id)
      · rw [if_pos hc] at h
        injection h with h1
        have hb : e0 = b := congrArg Prod.fst h1
        have hs : sim v e0.embedding = s := congrArg Prod.snd h1
        subst hb
        refine ⟨List.mem_cons_self _ _, hs, ?_⟩
        intro e he
        rcases List.mem_cons.mp he with he0 | hes
        · subst he0; exact ⟨le_of_eq hs, fun _ => le_refl _⟩
        · obtain ⟨hle, htie⟩ := hall e hes
          rcases hc with hlt | ⟨heq, hid⟩
          · have h6 : s1 < s := by rw [← hs]; exact hlt
            refine ⟨le_trans hle (le_of_lt h6), ?_⟩
            intro habs
            have h5 : s ≤ s1 := by rw [← habs]; exact hle
            exact absurd (lt_of_le_of_lt h5 h6) (lt_irrefl s)
          · refine ⟨hs ▸ heq ▸ hle, ?_⟩
            intro htop
            have : sim v e.embedding = s1 := by rw [htop, ← hs, heq]
            exact le_of_lt (lt_of_lt_of_le hid (htie this))
      · rw [if_neg hc] at h
        injection h with h1
        have hb : b1 = b := congrArg Prod.fst h1
        have hs : s1 = s := congrArg Prod.snd h1
        subst hb; subst hs
        push_neg at hc
        obtain ⟨hle0, htie0⟩ := hc
        refine ⟨List.mem_cons_of_mem _ hb1mem, hs1, ?_⟩
        intro e he
        rcases List.mem_cons.mp he with he0 | hes
        · subst he0
          exact ⟨hle0, htie0⟩
        · exact hall e hes

/-- The alias-append mutation never changes an entity id. -/
theorem appendAliasOf_id (b : CanonicalEntity) (raw : String)
    (e : CanonicalEntity) : (appendAliasOf b raw e).id = e.id := by
  simp only [appendAliasOf]
  split <;> rfl

/-- Case analysis of one Align call: either some best entity reached the
threshold and the store got the alias appended to it, or every candidate fell
short and a fresh entity was created. -/
theorem Align_cases (cfg : EngineConfig) (store : EntityStore) (raw : String) :
    (∃ b s, bestMatch cfg.sim (cfg.embed (normalize raw)) store.entities
        = some (b, s) ∧
      cfg.threshold ≤ s ∧
      Align cfg store raw =
        ({ store with entities := store.entities.map (appendAliasOf b raw) },
         { original_name := raw, aligned_entity_name := b.canonical_name,
           action := .matched, similarity := some s, entity_id := b.id })) ∨
    ((∀ b s, bestMatch cfg.sim (cfg.embed (normalize raw)) store.entities
        = some (b, s) → s < cfg.threshold) ∧
      Align cfg store raw
        = createEntity store raw (cfg.embed (normalize raw))) := by
  cases hb : bestMatch cfg.sim (cfg.embed (normalize raw)) store.entities with
  | none =>
    refine Or.inr ⟨?_, by simp only [Align, hb]⟩
    intro b s h
    exact Option.noConfusion h
  | some p =>
    obtain ⟨b, s⟩ := p
    by_cases hth : cfg.threshold ≤ s
    · exact Or.inl ⟨b, s, rfl, hth, by simp only [Align, hb, if_pos hth]⟩
    · refine Or.inr ⟨?_, by simp only [Align, hb, if_neg hth]⟩
      intro b1 s1 h1
      injection h1 with h2
      have hs : s = s1 := congrArg Prod.snd h2
      rw [← hs]
      exact not_le.mp hth

/-- Creating an entity preserves the store invariants. -/
theorem createEntity_StoreWF (store : EntityStore) (raw : String) (v : List ℚ)
    (hwf : StoreWF store) : StoreWF (createEntity store raw v).1 := by
  obtain ⟨hu, hid, hnd⟩ := hwf
  refine ⟨?_, ?_, ?_⟩
  · intro e he
    simp only [createEntity, List.mem_append, List.mem_singleton] at he
    rcases he with he | he
    · exact hu e he
    · subst he; rfl
  · intro e he
    simp only [createEntity, List.mem_append, List.mem_singleton] at he
    rcases he with he | he
    · exact Nat.lt_trans (hid e he) (Nat.lt_succ_self _)
    · subst he; exact Nat.lt_succ_self _
  · simp only [NodupIds, createEntity, List.map_append, List.map_cons,
      List.map_nil, List.nodup_append] at *
    refine ⟨hnd, List.nodup_singleton _, ?_⟩
    intro x hx hx1
    rw [List.mem_singleton] at hx1
    subst hx1
    obtain ⟨e, he, hex⟩ := List.mem_map.mp hx
    exact absurd (hex ▸ hid e he) (lt_irrefl _)

/-- Appending an alias to the best entity preserves the store invariants. -/
theorem matched_StoreWF (store : EntityStore) (b : CanonicalEntity)
    (raw : String) (hwf : StoreWF store) :
    StoreWF { store with entities := store.entities.map (appendAliasOf b raw) }
    := by
  obtain ⟨hu, hid, hnd⟩ := hwf
  refine ⟨?_, ?_, ?_⟩
  · intro e he
    obtain ⟨e0, he0, heq⟩ := List.mem_map.mp he
    subst heq
    simp only [appendAliasOf]
    split
    · simp [hu e0 he0]
    · exact hu e0 he0
  · intro e he
    obtain ⟨e0, he0, heq⟩ := List.mem_map.mp he
    subst heq
    rw [appendAliasOf_id]
    exact hid e0 he0
  · simp only [NodupIds, List.map_map]
    have hsame : ((fun e : CanonicalEntity => e.id) ∘ appendAliasOf b raw)
        = fun e : CanonicalEntity => e.id := by
      funext e
      simp only [Function.comp]
      exact appendAliasOf_id b raw e
    rw [hsame]
    exact hnd

/-- Effect of a matched Align step on the per-id usage count of the store. -/
theorem initUsage_matched (store : EntityStore) (b : CanonicalEntity)
    (raw : String) (hbmem : b ∈ store.entities) (i : Nat) :
    initUsage { store with entities := store.entities.map (appendAliasOf b raw) }
        i =
      initUsage store i + (if b.id = i then 1 else 0) := by
  simp only [initUsage, List.find?_map]
  have hpc : ((fun e : CanonicalEntity => decide (e.id = i)) ∘ appendAliasOf b raw)
      = fun e : CanonicalEntity => decide (e.id = i) := by
    funext e
    simp only [Function.comp]
    rw [appendAliasOf_id]
  rw [hpc]
  by_cases hbi : b.id = i
  · have hex : ∃ x, x ∈ store.entities ∧
        (fun e : CanonicalEntity => decide (e.id = i)) x = true :=
      ⟨b, hbmem, by simp [hbi]⟩
    cases hf : store.entities.find? fun e => decide (e.id = i) with
    | none =>
      have := List.find?_isSome.mpr hex
      rw [hf] at this
      exact absurd this (by simp)
    | some e0 =>
      have hpe0 : e0.id = i := by simpa using List.find?_some hf
      have he0b : e0.id = b.id := by omega
      simp [appendAliasOf, he0b, hbi]
  · cases hf : store.entities.find? fun e => decide (e.id = i) with
    | none => simp [if_neg hbi]
    | some e0 =>
      have hpe0 : e0.id = i := by simpa using List.find?_some hf
      have hne : ¬ e0.id = b.id := by omega
      simp [appendAliasOf, hne, hbi]

/-- Effect of a creating Align step on the per-id usage count of the store. -/
theorem initUsage_created (store : EntityStore) (raw : String) (v : List ℚ)
    (i : Nat) (hid : IdInv store) :
    initUsage (createEntity store raw v).1 i =
      initUsage store i + (if store.next_id = i then 1 else 0) := by
  simp only [initUsage, createEntity, List.find?_append]
  by_cases hni : store.next_id = i
  · have hnone : (store.entities.find? fun e => decide (e.id = i)) = none := by
      rw [List.find?_eq_none]
      intro e he
      have := hid e he
      simp only [decide_eq_true_eq]
      omega
    rw [hnone]
    simp [hni]
  · have hnewnone :
        (([{ id := store.next_id, canonical_name := raw, embedding := v,
             aliases := [raw], usage_count := 1 }] :
          List CanonicalEntity).find? fun e => decide (e.id = i)) = none := by
      rw [List.find?_eq_none]
      intro e he
      rw [List.mem_singleton] at he
      subst he
      simp only [decide_eq_true_eq]
      exact hni
    rw [hnewnone, if_neg hni]
    cases hf : store.entities.find? fun e => decide (e.id = i) <;> simp [hf]

/-- One Align step preserves the store invariants and increments exactly the
usage count of the entity the call resolved to. -/
theorem Align_step (cfg : EngineConfig) (store : EntityStore) (raw : String)
    (hwf : StoreWF store) :
    StoreWF (Align cfg store raw).1 ∧
    ∀ i, initUsage (Align cfg store raw).1 i =
      initUsage store i +
        (if (Align cfg store raw).2.entity_id = i then 1 else 0) := by
  rcases Align_cases cfg store raw with ⟨b, s, hb, hth, heq⟩ | ⟨hlt, heq⟩
  · obtain ⟨hbmem, -, -⟩ :=
      bestMatch_spec cfg.sim (cfg.embed (normalize raw)) store.entities b s hb
    rw [heq]
    exact ⟨matched_StoreWF store b raw hwf,
      fun i => initUsage_matched store b raw hbmem i⟩
  · rw [heq]
    exact ⟨createEntity_StoreWF store raw _ hwf,
      fun i => initUsage_created store raw _ i hwf.2.1⟩

/-- A run of Align calls preserves the store invariants and, for every id,
raises the stored usage count by exactly the number of results that resolved
to that id. -/
theorem alignAll_invariant (cfg : EngineConfig) (names : List String) :
    ∀ store : EntityStore, StoreWF store →
      StoreWF (alignAll cfg store names).1 ∧
      store.next_id ≤ (alignAll cfg store names).1.next_id ∧
      ∀ i, initUsage (alignAll cfg store names).1 i =
        initUsage store i + countResolved (alignAll cfg store names).2 i := by
  induction names with
  | nil =>
    intro store h
    exact ⟨h, le_refl _, fun i => by simp [alignAll, countResolved]⟩
  | cons n rest ih =>
    intro store h
    obtain ⟨h1, h2⟩ := Align_step cfg store n h
    obtain ⟨h3, h3b, h4⟩ := ih (Align cfg store n).1 h1
    have hstep : store.next_id ≤ (Align cfg store n).1.next_id := by
      rcases Align_cases cfg store n with ⟨b, s, hb, hth, heq⟩ | ⟨hlt, heq⟩
      · rw [heq]
      · rw [heq]; exact Nat.le_succ _
    refine ⟨by simpa only [alignAll] using h3,
      by simpa only [alignAll] using le_trans hstep h3b, ?_⟩
    intro i
    have h5 := h4 i
    have h6 := h2 i
    simp only [alignAll]
    rw [h5, h6]
    simp only [countResolved, List.filter_cons]
    by_cases hc : (Align cfg store n).2.entity_id = i
    · rw [if_pos (show decide ((Align cfg store n).2.entity_id = i) = true by
          simp [hc]), if_pos hc]
      simp only [List.length_cons]
      omega
    · rw [if_neg (show ¬ decide ((Align cfg store n).2.entity_id = i) = true by
          simp [hc]), if_neg hc]
      omega

/-- In a store with pairwise distinct ids, looking up the id of a stored
entity finds that entity. -/
theorem find?_id_eq_self (l : List CanonicalEntity)
    (hnd : (l.map fun e => e.id).Nodup) :
    ∀ e ∈ l, (l.find? fun x => x.id = e.id) = some e := by
  induction l with
  | nil => intro e he; exact absurd he (List.not_mem_nil e)
  | cons a l ih =>
    intro e he
    rw [List.map_cons, List.nodup_cons] at hnd
    rcases List.mem_cons.mp he with rfl | hel
    · exact List.find?_cons_of_pos _ (by simp)
    · have hane : ¬ (a.id = e.id) := by
        intro hsame
        exact hnd.1 (hsame ▸ List.mem_map_of_mem (fun x => x.id) hel)
      rw [List.find?_cons_of_neg _ (by simpa using hane)]
      exact ih hnd.2 e hel

/-! ## Claim theorems: engine (modelled from the spec) -/

/-- C4: after every run of Align operations from a well-formed store, every
entity satisfies usage_count = len(aliases); every entity's usage count is
its initial usage count plus the number of alignments of the run that
resolved to it, so usage_count is monotonically increasing and never
decremented; and an entity created during the run (id at least the initial
id counter) has usage_count equal to the number K of alignments that
resolved to it, the creating one included. -/
theorem C4_usage_count_invariant (cfg : EngineConfig) (store : EntityStore)
    (names : List String) (hwf : StoreWF store) :
    (∀ e ∈ (alignAll cfg store names).1.entities,
      e.usage_count = e.aliases.length) ∧
    (∀ e ∈ (alignAll cfg store names).1.entities,
      e.usage_count =
        initUsage store e.id +
          countResolved (alignAll cfg store names).2 e.id) ∧
    (∀ e ∈ (alignAll cfg store names).1.entities, store.next_id ≤ e.id →
      e.usage_count = countResolved (alignAll cfg store names).2 e.id) := by
  obtain ⟨hwf1, hnext, husage⟩ := alignAll_invariant cfg names store hwf
  have hkey : ∀ e ∈ (alignAll cfg store names).1.entities,
      e.usage_count =
        initUsage store e.id +
          countResolved (alignAll cfg store names).2 e.id := by
    intro e he
    have hfind := find?_id_eq_self (alignAll cfg store names).1.entities
      hwf1.2.2 e he
    have : initUsage (alignAll cfg store names).1 e.id = e.usage_count := by
      simp only [initUsage]
      rw [hfind]
    rw [← this]
    exact husage e.id
  refine ⟨hwf1.1, hkey, ?_⟩
  intro e he hge
  have hzero : initUsage store e.id = 0 := by
    simp only [initUsage]
    have : (store.entities.find? fun x => x.id = e.id) = none := by
      rw [List.find?_eq_none]
      intro x hx
      have := hwf.2.1 x hx
      simp only [decide_eq_true_eq]
      omega
    rw [this]
  have := hkey e he
  omega

/-- C4 witness: the entity created by one alignment from the empty store
satisfies the usage invariant. -/
theorem C4_witness :
    (⟨0, "Reentrancy", [1], ["Reentrancy"], 1⟩ :
      CanonicalEntity).usage_count =
    (⟨0, "Reentrancy", [1], ["Reentrancy"], 1⟩ :
      CanonicalEntity).aliases.length := by
  have hwfe : StoreWF wEmpty := by
    refine ⟨?_, ?_, ?_⟩ <;> simp [UsageInv, IdInv, NodupIds, wEmpty]
  exact (C4_usage_count_invariant wCfg wEmpty ["Reentrancy"] hwfe).1
    ⟨0, "Reentrancy", [1], ["Reentrancy"], 1⟩ (by decide)

/-- C2: for every Align call with a non-empty store, the best candidate is
the entity of maximal similarity with ties broken by lowest id; similarity at
or above the threshold (inclusive boundary) yields action matched against
that entity, and similarity strictly below the threshold yields action
created. -/
theorem C2_threshold_inclusive_and_tiebreak (cfg : EngineConfig)
    (store : EntityStore) (raw : String) (b : CanonicalEntity) (s : ℚ)
    (hb : bestMatch cfg.sim (cfg.embed (normalize raw)) store.entities
      = some (b, s)) :
    (cfg.threshold ≤ s →
      (Align cfg store raw).2.action = Action.matched ∧
      (Align cfg store raw).2.entity_id = b.id ∧
      (Align cfg store raw).2.similarity = some s) ∧
    (s < cfg.threshold → (Align cfg store raw).2.action = Action.created) ∧
    b ∈ store.entities ∧
    cfg.sim (cfg.embed (normalize raw)) b.embedding = s ∧
    (∀ e ∈ store.entities,
      cfg.sim (cfg.embed (normalize raw)) e.embedding ≤ s ∧
      (cfg.sim (cfg.embed (normalize raw)) e.embedding = s → b.id ≤ e.id))
    := by
  obtain ⟨hmem, hsim, hall⟩ :=
    bestMatch_spec cfg.sim (cfg.embed (normalize raw)) store.entities b s hb
  refine ⟨?_, ?_, hmem, hsim, hall⟩
  · intro hth
    simp [Align, hb, if_pos hth]
  · intro hlt
    simp only [Align, hb, if_neg (not_le.mpr hlt), createEntity]

/-- C2 witness: with two stored entities tying at similarity 2 against the
threshold 1, the call matches and resolves to the lower id 1. -/
theorem C2_witness :
    (Align wCfg wStore "Re-Entrancy").2.action = Action.matched ∧
    (Align wCfg wStore "Re-Entrancy").2.entity_id = 1 := by
  have h := C2_threshold_inclusive_and_tiebreak wCfg wStore "Re-Entrancy"
    wEnt2 2 (by decide)
  have h2 := h.1 (by decide)
  exact ⟨h2.1, h2.2.1⟩

/-- C3: aligning the same raw name twice in sequence, starting from a store
in which no entity reaches the threshold for it, yields created on the first
call and matched with similarity 1 on the second, both resolving to the same
entity id (the id assigned at creation); the hypotheses state the spec-side
provider facts that self-similarity is 1 and the threshold is at most 1. -/
theorem C3_align_twice_idempotent (cfg : EngineConfig) (store : EntityStore)
    (raw : String)
    (hself : cfg.sim (cfg.embed (normalize raw)) (cfg.embed (normalize raw))
      = 1)
    (hth1 : cfg.threshold ≤ 1)
    (hnomatch : ∀ e ∈ store.entities,
      cfg.sim (cfg.embed (normalize raw)) e.embedding < cfg.threshold) :
    (Align cfg store raw).2.action = Action.created ∧
    (Align cfg store raw).2.entity_id = store.next_id ∧
    (Align cfg (Align cfg store raw).1 raw).2.action = Action.matched ∧
    (Align cfg (Align cfg store raw).1 raw).2.similarity = some 1 ∧
    (Align cfg (Align cfg store raw).1 raw).2.entity_id = store.next_id := by
  have heq1 : Align cfg store raw
      = createEntity store raw (cfg.embed (normalize raw)) := by
    rcases Align_cases cfg store raw with ⟨b, s, hb, hth, -⟩ | ⟨-, heq⟩
    · obtain ⟨hmem, hsim, -⟩ := bestMatch_spec cfg.sim
        (cfg.embed (normalize raw)) store.entities b s hb
      exact absurd (lt_of_le_of_lt (hsim ▸ hth) (hnomatch b hmem))
        (lt_irrefl _)
    · exact heq
  have hE : (Align cfg store raw).1.entities
      = store.entities ++
        [⟨store.next_id, raw, cfg.embed (normalize raw), [raw], 1⟩] := by
    rw [heq1]; rfl
  have hEmem : (⟨store.next_id, raw, cfg.embed (normalize raw), [raw], 1⟩ :
      CanonicalEntity) ∈ (Align cfg store raw).1.entities := by
    rw [hE]
    exact List.mem_append_right _ (List.mem_singleton_self _)
  rcases Align_cases cfg (Align cfg store raw).1 raw with
    ⟨b2, s2, hb2, hth2, heq2⟩ | ⟨hlt2, -⟩
  · obtain ⟨hmem2, hsim2, hall2⟩ := bestMatch_spec cfg.sim
      (cfg.embed (normalize raw)) (Align cfg store raw).1.entities b2 s2 hb2
    have hs2ge : 1 ≤ s2 := by
      have h9 := (hall2 _ hEmem).1
      simp only [hself] at h9
      exact h9
    have hb2new : b2 = (⟨store.next_id, raw, cfg.embed (normalize raw),
        [raw], 1⟩ : CanonicalEntity) := by
      rw [hE] at hmem2
      rcases List.mem_append.mp hmem2 with hold | hnew
      · have hlt := hnomatch b2 hold
        have hs2lt : s2 < cfg.threshold := by
          rw [← hsim2]
          exact hlt
        exact absurd (lt_of_lt_of_le hs2lt (le_trans hth1 hs2ge))
          (lt_irrefl s2)
      · exact List.mem_singleton.mp hnew
    have hs2 : s2 = 1 := by
      rw [← hsim2, hb2new, hself]
    refine ⟨by rw [heq1]; rfl, by rw [heq1]; rfl, ?_, ?_, ?_⟩
    · rw [heq2]
    · rw [heq2]
      simp only [hs2]
    · rw [heq2]
      simp only [hb2new]
  · exfalso
    cases hbm : bestMatch cfg.sim (cfg.embed (normalize raw))
        (Align cfg store raw).1.entities with
    | none =>
      have h11 : (Align cfg store raw).1.entities = [] :=
        bestMatch_eq_none _ _ _ hbm
      rw [hE] at h11
      simp at h11
    | some p =>
      obtain ⟨b2, s2⟩ := p
      obtain ⟨-, hsim2, hall2⟩ := bestMatch_spec cfg.sim
        (cfg.embed (normalize raw)) (Align cfg store raw).1.entities b2 s2 hbm
      have hs2ge : 1 ≤ s2 := by
        have h9 := (hall2 _ hEmem).1
        simp only [hself] at h9
        exact h9
      have h10 := hlt2 b2 s2 hbm
      exact absurd (lt_of_lt_of_le h10 (le_trans hth1 hs2ge)) (lt_irrefl _)

/-- C3 witness: aligning the name twice from the empty store creates then
matches with similarity 1 against the same id 0. -/
theorem C3_witness :
    (Align wCfg wEmpty "Reentrancy").2.action = Action.created ∧
    (Align wCfg (Align wCfg wEmpty "Reentrancy").1 "Reentrancy").2.action
      = Action.matched := by
  have h := C3_align_twice_idempotent wCfg wEmpty "Reentrancy"
    (by decide) (by decide)
    (by intro e he; exact absurd he (List.not_mem_nil e))
  exact ⟨h.1, h.2.2.1⟩

/-- After an entity with self-similarity 1 is in the store and every other
entity falls below the threshold, every further Align call for the same
normalized name matches that entity: the store gains no entity and every
result resolves to its id. -/
theorem alignAll_same_matched_aux (cfg : EngineConfig) (v : List ℚ) (i : Nat)
    (hself : cfg.sim v v = 1) (hth1 : cfg.threshold ≤ 1) :
    ∀ (rest : List String) (base : List CanonicalEntity)
      (E : CanonicalEntity) (nid : Nat),
      E.embedding = v → E.id = i →
      (∀ e ∈ base, cfg.sim v e.embedding < cfg.threshold) →
      (∀ e ∈ base, e.id ≠ i) →
      (∀ n ∈ rest, cfg.embed (normalize n) = v) →
      (alignAll cfg ⟨base ++ [E], nid⟩ rest).1.entities.length
          = base.length + 1 ∧
      ∀ r ∈ (alignAll cfg ⟨base ++ [E], nid⟩ rest).2,
        r.action = Action.matched ∧ r.entity_id = i := by
  intro rest
  induction rest with
  | nil =>
    intro base E nid hEv hEi hbase hbid hrest
    refine ⟨by simp [alignAll], ?_⟩
    intro r hr
    simp [alignAll] at hr
  | cons n rest ih =>
    intro base E nid hEv hEi hbase hbid hrest
    have hvn : cfg.embed (normalize n) = v := hrest n (List.mem_cons_self _ _)
    have hEmem : E ∈ base ++ [E] :=
      List.mem_append_right _ (List.mem_singleton_self _)
    rcases Align_cases cfg ⟨base ++ [E], nid⟩ n with
      ⟨b, s, hb, hth, heq⟩ | ⟨hlt2, -⟩
    · rw [hvn] at hb
      obtain ⟨hmem, hsim, hall⟩ := bestMatch_spec cfg.sim v _ b s hb
      have hsge : 1 ≤ s := by
        have h9 := (hall E hEmem).1
        rw [hEv, hself] at h9
        exact h9
      have hbE : b = E := by
        rcases List.mem_append.mp hmem with hin | hin
        · have hsm : s < cfg.threshold := by
            rw [← hsim]
            exact hbase b hin
          exact absurd (lt_of_lt_of_le hsm (le_trans hth1 hsge))
            (lt_irrefl s)
        · exact List.mem_singleton.mp hin
      have hbasemap : base.map (appendAliasOf b n) = base := by
        have h12 : ∀ a ∈ base, appendAliasOf b n a = id a := by
          intro a ha
          simp only [appendAliasOf, id]
          rw [if_neg]
          intro hsame
          exact hbid a ha (by rw [hsame, hbE, hEi])
        rw [List.map_congr_left h12, List.map_id]
      have hmap : (base ++ [E]).map (appendAliasOf b n)
          = base ++ [appendAliasOf b n E] := by
        rw [List.map_append, hbasemap, List.map_cons, List.map_nil]
      obtain ⟨ih1, ih2⟩ := ih base (appendAliasOf b n E) nid
        (by rw [appendAliasOf, hbE]; simp only [if_pos rfl]; exact hEv)
        (by rw [appendAliasOf_id]; exact hEi)
        hbase hbid
        (fun m hm => hrest m (List.mem_cons_of_mem _ hm))
      constructor
      · simp only [alignAll, heq, hmap]
        exact ih1
      · intro r hr
        simp only [alignAll, heq, hmap, List.mem_cons] at hr
        rcases hr with rfl | hr
        · exact ⟨rfl, by simp only [hbE, hEi]⟩
        · exact ih2 r hr
    · exfalso
      cases hbm : bestMatch cfg.sim (cfg.embed (normalize n))
          ((⟨base ++ [E], nid⟩ : EntityStore).entities) with
      | none =>
        have h11 := bestMatch_eq_none _ _ _ hbm
        simp at h11
      | some p =>
        obtain ⟨b2, s2⟩ := p
        rw [hvn] at hbm
        obtain ⟨-, hsim2, hall2⟩ := bestMatch_spec cfg.sim v _ b2 s2 hbm
        have hs2ge : 1 ≤ s2 := by
          have h9 := (hall2 E hEmem).1
          rw [hEv, hself] at h9
          exact h9
        have h10 := hlt2 b2 s2 (by rw [hvn]; exact hbm)
        exact absurd (lt_of_lt_of_le h10 (le_trans hth1 hs2ge))
          (lt_irrefl _)

/-- C1: under the critical-section serialization of §5 of the spec (any
concurrent execution of Align calls is equivalent to executing them in some
sequential order), N calls with the same normalized name against a
well-formed store containing no matching entity create exactly one
CanonicalEntity: the first call in the order returns created with the fresh
id, and the other N-1 calls all return matched against that same entity. -/
theorem C1_no_duplicate_under_serialization (cfg : EngineConfig)
    (store : EntityStore) (n0 : String) (rest : List String)
    (hsame : ∀ n ∈ rest, normalize n = normalize n0)
    (hself : cfg.sim (cfg.embed (normalize n0)) (cfg.embed (normalize n0))
      = 1)
    (hth1 : cfg.threshold ≤ 1)
    (hnomatch : ∀ e ∈ store.entities,
      cfg.sim (cfg.embed (normalize n0)) e.embedding < cfg.threshold)
    (hid : IdInv store) :
    (alignAll cfg store (n0 :: rest)).1.entities.length
        = store.entities.length + 1 ∧
    ∃ r0 rs, (alignAll cfg store (n0 :: rest)).2 = r0 :: rs ∧
      r0.action = Action.created ∧ r0.entity_id = store.next_id ∧
      ∀ r ∈ rs, r.action = Action.matched ∧ r.entity_id = store.next_id
    := by
  have heq1 : Align cfg store n0
      = createEntity store n0 (cfg.embed (normalize n0)) := by
    rcases Align_cases cfg store n0 with ⟨b, s, hb, hth, -⟩ | ⟨-, heq⟩
    · obtain ⟨hmem, hsim, -⟩ := bestMatch_spec cfg.sim
        (cfg.embed (normalize n0)) store.entities b s hb
      exact absurd (lt_of_le_of_lt (hsim ▸ hth) (hnomatch b hmem))
        (lt_irrefl _)
    · exact heq
  obtain ⟨haux1, haux2⟩ := alignAll_same_matched_aux cfg
    (cfg.embed (normalize n0)) store.next_id hself hth1 rest store.entities
    ⟨store.next_id, n0, cfg.embed (normalize n0), [n0], 1⟩
    (store.next_id + 1) rfl rfl hnomatch
    (fun e he => Nat.ne_of_lt (hid e he))
    (fun n hn => by rw [hsame n hn])
  constructor
  · simp only [alignAll, heq1]
    exact haux1
  · refine ⟨(createEntity store n0 (cfg.embed (normalize n0))).2,
      (alignAll cfg (createEntity store n0 (cfg.embed (normalize n0))).1
        rest).2, ?_, rfl, rfl, ?_⟩
    · simp only [alignAll, heq1]
    · intro r hr
      exact haux2 r hr

/-- C1 witness: three calls for the name from the empty store leave exactly
one entity in the store. -/
theorem C1_witness :
    (alignAll wCfg wEmpty
      ["Reentrancy", "Reentrancy", "Reentrancy"]).1.entities.length = 1 := by
  have h := C1_no_duplicate_under_serialization wCfg wEmpty "Reentrancy"
    ["Reentrancy", "Reentrancy"]
    (by
      intro n hn
      rcases List.mem_cons.mp hn with rfl | hn2
      · rfl
      · rcases List.mem_cons.mp hn2 with rfl | hn3
        · rfl
        · exact absurd hn3 (List.not_mem_nil n))
    (by decide) (by decide)
    (by intro e he; exact absurd he (List.not_mem_nil e))
    (by intro e he; exact absurd he (List.not_mem_nil e))
  have h1 := h.1
  simpa [wEmpty] using h1

end Zstp
